import Mathlib

/-!
Verification of the pattern-matching pipeline library (src/src/lib.rs,
src/src/quantifiers.rs, src/src/digesters.rs).

The Rust code is shallowly embedded: `Vec<Symbol>` becomes `List α`,
`Result<MatchingPipeline, PipelineError>` becomes the inductive
`PipelineResult`, and each combinator is a pure Lean function translated
from the corresponding Rust method.  The `cursor` field is absent from
src/src/lib.rs but is required by the repository's tests and by the spec;
its handling is modelled from the spec (see the comments on the structure
and on `consume` / `skip`).
-/

namespace PatternMatcher

variable {α : Type} [DecidableEq α]

/-- Models `SymbolGroup` (src/src/lib.rs lines 6-11): a named, described set
of accepted symbols. -/
structure SymbolGroup (α : Type) where
  accepted_symbols : List α
  description : String
deriving DecidableEq

/-- Models `SymbolGroup::accept` (src/src/lib.rs lines 14-17). -/
def SymbolGroup.accept (g : SymbolGroup α) (symbol : α) : Bool :=
  g.accepted_symbols.contains symbol

/-- Models `MatchingPipeline` (src/src/lib.rs lines 20-26).
The `cursor` field is `Modelled from the spec:` it is missing from
src/src/lib.rs, but the repository's tests (src/src/tests.rs) construct
`MatchingPipeline` values with a `cursor` and the spec lists it as an
attribute ("non-negative count of consumed symbols while not exhausted,
or a defined sentinel once exhausted"); the tests fix the sentinel at `-1`. -/
structure MatchingPipeline (α : Type) where
  matched : List α
  unmatched : List α
  reached_eos : Bool
  cursor : Int
deriving DecidableEq

/-- Models `PipelineError` (src/src/lib.rs lines 40-62). -/
inductive PipelineError (α : Type) where
  | unexpectedEos : PipelineError α
  | wrongSymbol (expected : α) (actual : α) : PipelineError α
  | wrongPattern (expected : List α) (actual : List α) : PipelineError α
  | symbolNotPartOfGroup (expected : SymbolGroup α) (actual : α) : PipelineError α
  | symbolNotMatchAnyOf (expected : List α) (actual : α) : PipelineError α
deriving DecidableEq

/-- Models `PipelineResult` (src/src/lib.rs line 76), i.e.
`Result<MatchingPipeline<Symbol>, PipelineError<Symbol>>`. -/
inductive PipelineResult (α : Type) where
  | ok (p : MatchingPipeline α) : PipelineResult α
  | error (e : PipelineError α) : PipelineResult α
deriving DecidableEq

/-- Models `MatchingPipeline::new` (src/src/lib.rs lines 137-140): the
candidate sequence becomes `unmatched`, `matched` starts empty and
`reached_eos` caches emptiness.  Cursor initialisation is
`Modelled from the spec:` `-1` sentinel when already exhausted, else `0`. -/
def MatchingPipeline.new (candidate : List α) : MatchingPipeline α :=
  { matched := [], unmatched := candidate,
    reached_eos := candidate.isEmpty,
    cursor := if candidate.isEmpty then -1 else 0 }

/-- Models `begin_match` (src/src/lib.rs lines 311-313). -/
def begin_match (candidate : List α) : MatchingPipeline α :=
  MatchingPipeline.new candidate

/-- Models `From<&str> for MatchingPipeline<char>` (src/src/lib.rs lines
34-38): the string is decomposed into its ordered character sequence. -/
def from_str (s : String) : MatchingPipeline Char :=
  MatchingPipeline.new s.data

/-- Models `MatchingPipeline::consume` (src/src/lib.rs lines 146-159):
no-op when exhausted, otherwise moves the head of `unmatched` to the tail
of `matched` and recomputes `reached_eos`.  The `[]` branch with
`reached_eos = false` corresponds to the Rust `split_at(1)` panic on an
ill-formed state (unreachable for constructible pipelines) and is mapped
to the identity.  The cursor update is `Modelled from the spec:` advance
by one per removed symbol, `-1` sentinel once exhausted. -/
def MatchingPipeline.consume (p : MatchingPipeline α) : MatchingPipeline α :=
  if p.reached_eos then p
  else
    match p.unmatched with
    | [] => p
    | x :: rest =>
        { matched := p.matched ++ [x], unmatched := rest,
          reached_eos := rest.isEmpty,
          cursor := if rest.isEmpty then -1 else p.cursor + 1 }

/-- Models `MatchingPipeline::skip` (src/src/lib.rs lines 164-174): like
`consume` but the symbol is discarded (`get(1..).unwrap_or_default()`
drops the head without appending it to `matched`).  Cursor update
`Modelled from the spec:` as in `consume`. -/
def MatchingPipeline.skip (p : MatchingPipeline α) : MatchingPipeline α :=
  if p.reached_eos then p
  else
    match p.unmatched with
    | [] => { p with unmatched := [], reached_eos := true, cursor := -1 }
    | _ :: rest =>
        { p with unmatched := rest,
                 reached_eos := rest.isEmpty,
                 cursor := if rest.isEmpty then -1 else p.cursor + 1 }

/-- Models `MatchingPipeline::match_symbol` (src/src/lib.rs lines 179-191).
The `[]` branch with `reached_eos = false` corresponds to the Rust
`unwrap` panic on an ill-formed state (unreachable for constructible
pipelines). -/
def MatchingPipeline.match_symbol (p : MatchingPipeline α) (symbol : α) :
    PipelineResult α :=
  if p.reached_eos then .error .unexpectedEos
  else
    match p.unmatched with
    | [] => .error .unexpectedEos
    | actual :: _ =>
        if symbol = actual then .ok p.consume
        else .error (.wrongSymbol symbol actual)

/-- Iterated `consume`.  `MatchingPipeline::match_pattern` consumes its
matched slice by looping `match_symbol(symbol).expect(..)` over it; on the
success path each such call is exactly one `consume`, so the loop is
`pattern.length` consumes in order. -/
def consumeN (p : MatchingPipeline α) : Nat → MatchingPipeline α
  | 0 => p
  | n + 1 => consumeN p.consume n

/-- Models `MatchingPipeline::match_pattern` (src/src/lib.rs lines 196-214):
`unmatched.get(0..pattern.len())` is `Some` exactly when
`pattern.length ≤ unmatched.length`, in which case the slice is
`unmatched.take pattern.length`; on slice equality the pattern is consumed
symbol by symbol, otherwise the available slice (or, when too short, the
whole of `unmatched`) is reported in `WrongPattern`. -/
def MatchingPipeline.match_pattern (p : MatchingPipeline α)
    (pattern : List α) : PipelineResult α :=
  if pattern.length ≤ p.unmatched.length then
    if p.unmatched.take pattern.length = pattern then
      .ok (consumeN p pattern.length)
    else
      .error (.wrongPattern pattern (p.unmatched.take pattern.length))
  else
    .error (.wrongPattern pattern p.unmatched)

/-- Models `MatchingPipeline::match_any_of` (src/src/lib.rs lines 219-233). -/
def MatchingPipeline.match_any_of (p : MatchingPipeline α)
    (symbols : List α) : PipelineResult α :=
  if p.reached_eos then .error .unexpectedEos
  else
    match p.unmatched with
    | [] => .error .unexpectedEos
    | actual :: _ =>
        if symbols.contains actual then .ok p.consume
        else .error (.symbolNotMatchAnyOf symbols actual)

/-- Models `MatchingPipeline::match_any_of_group` (src/src/lib.rs lines
236-250). -/
def MatchingPipeline.match_any_of_group (p : MatchingPipeline α)
    (group : SymbolGroup α) : PipelineResult α :=
  if p.reached_eos then .error .unexpectedEos
  else
    match p.unmatched with
    | [] => .error .unexpectedEos
    | actual :: _ =>
        if group.accept actual then .ok p.consume
        else .error (.symbolNotPartOfGroup group actual)

/-- The loop of `MatchingPipeline::match_until` (src/src/lib.rs lines
258-277), with the number of remaining loop iterations made explicit as
fuel: each iteration that neither hits end-of-stream nor matches the
delimiter consumes one symbol, so `p.unmatched.length` iterations always
suffice (for well-formed states the fuel is never exhausted first). -/
def match_until_go (delim : List α) : Nat → MatchingPipeline α → MatchingPipeline α
  | 0, p => p
  | fuel + 1, p =>
    if p.reached_eos then p
    else
      match p.match_pattern delim with
      | .ok s => s
      | .error _ => match_until_go delim fuel p.consume

/-- Models `MatchingPipeline::match_until` (src/src/lib.rs lines 258-277):
runs the loop and unconditionally returns `Ok`. -/
def MatchingPipeline.match_until (p : MatchingPipeline α) (delim : List α) :
    PipelineResult α :=
  .ok (match_until_go delim p.unmatched.length p)

/-- The loop of `MatchingPipeline::match_until_group` (src/src/lib.rs lines
282-299), fuelled like `match_until_go`.  The `[]` branch with
`reached_eos = false` corresponds to the Rust `expect` panic on an
ill-formed state. -/
def match_until_group_go (group : SymbolGroup α) :
    Nat → MatchingPipeline α → MatchingPipeline α
  | 0, p => p
  | fuel + 1, p =>
    if p.reached_eos then p
    else
      match p.unmatched with
      | [] => p
      | x :: _ =>
        if group.accept x then p.consume
        else match_until_group_go group fuel p.consume

/-- Models `MatchingPipeline::match_until_group` (src/src/lib.rs lines
282-299). -/
def MatchingPipeline.match_until_group (p : MatchingPipeline α)
    (group : SymbolGroup α) : PipelineResult α :=
  .ok (match_until_group_go group p.unmatched.length p)

/-- Models `MatchingPipeline::block` (src/src/lib.rs lines 302-304). -/
def MatchingPipeline.block (p : MatchingPipeline α)
    (callback : MatchingPipeline α → PipelineResult α) : PipelineResult α :=
  callback p

/-- The loop of `Quantifiable<Exactly> for MatchingPipeline`
(src/src/lib.rs lines 89-132).  The Nat argument is the number of
successes still required (`quantifier.0 - n` for the Rust counter `n`);
the Rust target is a `NonZeroUsize`, so the argument starts at `target ≥ 1`
and the `0` case is unreachable (it is mapped to the same error the loop
produces when it breaks).  Each iteration first checks `reached_eos`
(breaking to `Err(UnexpectedEos)`), then applies the callback to a clone:
failure is returned verbatim, success either completes the quantifier or
continues with one fewer success required. -/
def exactly_lib_go (cb : MatchingPipeline α → PipelineResult α) :
    Nat → MatchingPipeline α → PipelineResult α
  | 0, _ => .error .unexpectedEos
  | k + 1, p =>
    if p.reached_eos then .error .unexpectedEos
    else
      match cb p with
      | .error e => .error e
      | .ok s =>
        match k with
        | 0 => .ok s
        | k' + 1 => exactly_lib_go cb (k' + 1) s

/-- Models `with_quantifier` of `Quantifiable<Exactly> for MatchingPipeline`
(src/src/lib.rs lines 89-132). -/
def with_quantifier_exactly_lib (p : MatchingPipeline α) (target : Nat)
    (cb : MatchingPipeline α → PipelineResult α) : PipelineResult α :=
  exactly_lib_go cb target p

/-- The loop of `WithQuantifier<Exactly> for MatchingPipeline`
(src/src/quantifiers.rs lines 17-55).  Unlike the lib.rs implementation it
performs no end-of-stream check: every iteration applies the callback (via
`block`) to a clone of the current state.  The Nat argument is the number
of successes still required; the Rust target is a `NonZeroUsize`, so the
`0` case is unreachable (with target `0` the Rust loop would never
terminate; the case is mapped to an arbitrary error). -/
def exactly_go (cb : MatchingPipeline α → PipelineResult α) :
    Nat → MatchingPipeline α → PipelineResult α
  | 0, _ => .error .unexpectedEos
  | k + 1, p =>
    match cb p with
    | .error e => .error e
    | .ok s =>
      match k with
      | 0 => .ok s
      | k' + 1 => exactly_go cb (k' + 1) s

/-- Models `with_quantifier` of `WithQuantifier<Exactly> for
MatchingPipeline` (src/src/quantifiers.rs lines 17-55). -/
def with_quantifier_exactly (p : MatchingPipeline α) (target : Nat)
    (cb : MatchingPipeline α → PipelineResult α) : PipelineResult α :=
  exactly_go cb target p

/-- Models `with_quantifier` of `WithQuantifier<ZeroOrOne> for
MatchingPipeline` (src/src/quantifiers.rs lines 57-67): one attempt on a
clone; success adopts the new state, failure is swallowed. -/
def with_quantifier_zero_or_one (p : MatchingPipeline α)
    (cb : MatchingPipeline α → PipelineResult α) : PipelineResult α :=
  match p.block cb with
  | .ok s => .ok s
  | .error _ => .ok p

/-- The loop of `WithQuantifier<AtLeast> for MatchingPipeline`
(src/src/quantifiers.rs lines 69-89), with fuel made explicit: the Rust
loop has no bound of its own (and no end-of-stream check) and stops only
when the callback fails, so it need not terminate for an arbitrary
callback; `none` records fuel exhaustion.  `n` is the Rust success
counter, `target` is `quantifier.0`. -/
def at_least_go (cb : MatchingPipeline α → PipelineResult α) (target : Nat) :
    Nat → Nat → MatchingPipeline α → Option (PipelineResult α)
  | 0, _, _ => none
  | fuel + 1, n, p =>
    match cb p with
    | .ok s => at_least_go cb target fuel (n + 1) s
    | .error e => some (if target ≤ n then .ok p else .error e)

/-- Models `with_quantifier` of `WithQuantifier<AtLeast> for
MatchingPipeline` (src/src/quantifiers.rs lines 69-89), supplied with
`unmatched.length + 1` fuel — enough whenever every callback success
strictly shrinks `unmatched` (the termination theorem below). -/
def with_quantifier_at_least (p : MatchingPipeline α) (target : Nat)
    (cb : MatchingPipeline α → PipelineResult α) : Option (PipelineResult α) :=
  at_least_go cb target (p.unmatched.length + 1) 0 p

/-- Models `with_quantifier` of `WithQuantifier<ZeroOrMore> for
MatchingPipeline` (src/src/quantifiers.rs lines 134-138): delegates to
`AtLeast(0)`. -/
def with_quantifier_zero_or_more (p : MatchingPipeline α)
    (cb : MatchingPipeline α → PipelineResult α) : Option (PipelineResult α) :=
  with_quantifier_at_least p 0 cb

/-- The loop of `WithQuantifier<AtMost> for MatchingPipeline`
(src/src/quantifiers.rs lines 91-132).  The Nat argument is the number of
successes still allowed (`quantifier.0 - n`); the Bool records whether at
least one success has occurred (`n.is_some()` in the Rust code).  On a
callback failure: zero successes propagates the failure, otherwise the
accumulated state is returned (the Rust `n <= quantifier.0` test is always
true at that point, so its `return result` fallthrough is dead code).  The
target is a `NonZeroUsize`, so the `0` case is unreachable. -/
def at_most_go (cb : MatchingPipeline α → PipelineResult α) :
    Nat → Bool → MatchingPipeline α → PipelineResult α
  | 0, _, p => .ok p
  | k + 1, any, p =>
    match cb p with
    | .ok s =>
      match k with
      | 0 => .ok s
      | k' + 1 => at_most_go cb (k' + 1) true s
    | .error e => if any then .ok p else .error e

/-- Models `with_quantifier` of `WithQuantifier<AtMost> for
MatchingPipeline` (src/src/quantifiers.rs lines 91-132). -/
def with_quantifier_at_most (p : MatchingPipeline α) (target : Nat)
    (cb : MatchingPipeline α → PipelineResult α) : PipelineResult α :=
  at_most_go cb target false p

/-- Models `Digester<char> for StringDigester` (src/src/digesters.rs lines
23-28): collect the matched character run into a string. -/
def StringDigester.digest (symbols : List Char) : String :=
  String.mk symbols

/-- Well-formedness of a pipeline state: the cached `reached_eos` flag
agrees with emptiness of `unmatched`.  Every pipeline constructible through
the public Rust API satisfies this (the fields are private). -/
def WellFormed (p : MatchingPipeline α) : Prop :=
  p.reached_eos = p.unmatched.isEmpty

/-- States reachable from a freshly created pipeline.  Every operation of
the library moves symbols out of `unmatched` one at a time, either via
`consume` (all matching operations, `match_until`, `match_until_group` and
the quantifier loops, whose callbacks are themselves built from these
operations) or via `skip`; so the closure under single `consume` / `skip`
steps contains every state any operation sequence can produce. -/
inductive Reachable (input : List α) : MatchingPipeline α → Prop
  | init : Reachable input (MatchingPipeline.new input)
  | consume {p : MatchingPipeline α} :
      Reachable input p → Reachable input p.consume
  | skip {p : MatchingPipeline α} :
      Reachable input p → Reachable input p.skip

/-- States reachable without ever using `skip` (the combinators and
quantifiers all move symbols exclusively via `consume`). -/
inductive ReachableNoSkip (input : List α) : MatchingPipeline α → Prop
  | init : ReachableNoSkip input (MatchingPipeline.new input)
  | consume {p : MatchingPipeline α} :
      ReachableNoSkip input p → ReachableNoSkip input p.consume

/-- Iterated successful applications of a sub-combinator: the states a
quantifier loop passes through. -/
inductive CbIter (cb : MatchingPipeline α → PipelineResult α) :
    MatchingPipeline α → MatchingPipeline α → Prop
  | refl (p : MatchingPipeline α) : CbIter cb p p
  | step {p q r : MatchingPipeline α} :
      CbIter cb p q → cb q = .ok r → CbIter cb p r

/-- Counted successful applications of a sub-combinator:
`CbChain cb j p q` says the sub-combinator, started at `p`, succeeds `j`
times in a row and leaves the state at `q`.  This is the execution path of
the quantifiers.rs `Exactly` loop, which applies the callback
unconditionally. -/
inductive CbChain (cb : MatchingPipeline α → PipelineResult α) :
    Nat → MatchingPipeline α → MatchingPipeline α → Prop
  | refl (p : MatchingPipeline α) : CbChain cb 0 p p
  | step {j : Nat} {p q r : MatchingPipeline α} :
      CbChain cb j p q → cb q = .ok r → CbChain cb (j + 1) p r

/-- The execution path of the lib.rs `Exactly` loop: like `CbChain`, but
each state at which the callback is applied has additionally passed the
loop's end-of-stream check (`reached_eos = false`). -/
inductive ExactlyPath (cb : MatchingPipeline α → PipelineResult α) :
    Nat → MatchingPipeline α → MatchingPipeline α → Prop
  | refl (p : MatchingPipeline α) : ExactlyPath cb 0 p p
  | step {j : Nat} {p q r : MatchingPipeline α} :
      ExactlyPath cb j p q → q.reached_eos = false →
      cb q = .ok r → ExactlyPath cb (j + 1) p r

/-- The state obtained by applying the sub-combinator greedily at most `k`
more times, stopping at the first failure: the state accumulated by the
`AtMost` loop after its first success. -/
def run_at_most (cb : MatchingPipeline α → PipelineResult α) :
    Nat → MatchingPipeline α → MatchingPipeline α
  | 0, p => p
  | k + 1, p =>
    match cb p with
    | .ok s => run_at_most cb k s
    | .error _ => p

/-- First position (if any) at which the delimiter pattern matches as a
contiguous run, using the same availability-and-equality test as
`match_pattern`. -/
def findDelim (delim : List α) : List α → Option Nat
  | [] => if delim = [] then some 0 else none
  | x :: rest =>
    if delim.length ≤ (x :: rest).length ∧ (x :: rest).take delim.length = delim
    then some 0
    else (findDelim delim rest).map (fun k => k + 1)

/-- What `match_until` is claimed to do to the state: when the delimiter
first matches at position `k`, everything up to and through the delimiter
is consumed; when it never matches, the whole remainder is consumed and
the state is exhausted. -/
def MatchUntilSpec (p : MatchingPipeline α) (delim : List α)
    (q : MatchingPipeline α) : Prop :=
  match findDelim delim p.unmatched with
  | some k =>
      q.matched = p.matched ++ p.unmatched.take (k + delim.length) ∧
      q.unmatched = p.unmatched.drop (k + delim.length)
  | none =>
      q.matched = p.matched ++ p.unmatched ∧
      q.unmatched = [] ∧ q.reached_eos = true

/-! ### Basic lemmas about the primitives -/

set_option linter.unusedSectionVars false

theorem consume_of_eos {p : MatchingPipeline α} (h : p.reached_eos = true) :
    p.consume = p := by
  simp [MatchingPipeline.consume, h]

theorem consume_matched {p : MatchingPipeline α} {x : α} {rest : List α}
    (h : p.reached_eos = false) (hu : p.unmatched = x :: rest) :
    p.consume.matched = p.matched ++ [x] := by
  simp [MatchingPipeline.consume, h, hu]

theorem consume_unmatched {p : MatchingPipeline α} {x : α} {rest : List α}
    (h : p.reached_eos = false) (hu : p.unmatched = x :: rest) :
    p.consume.unmatched = rest := by
  simp [MatchingPipeline.consume, h, hu]

theorem consume_eos {p : MatchingPipeline α} {x : α} {rest : List α}
    (h : p.reached_eos = false) (hu : p.unmatched = x :: rest) :
    p.consume.reached_eos = rest.isEmpty := by
  simp [MatchingPipeline.consume, h, hu]

theorem consume_cursor {p : MatchingPipeline α} {x : α} {rest : List α}
    (h : p.reached_eos = false) (hu : p.unmatched = x :: rest) :
    p.consume.cursor = if rest.isEmpty then -1 else p.cursor + 1 := by
  simp [MatchingPipeline.consume, h, hu]

theorem skip_of_eos {p : MatchingPipeline α} (h : p.reached_eos = true) :
    p.skip = p := by
  simp [MatchingPipeline.skip, h]

theorem skip_matched {p : MatchingPipeline α} {x : α} {rest : List α}
    (h : p.reached_eos = false) (hu : p.unmatched = x :: rest) :
    p.skip.matched = p.matched := by
  simp [MatchingPipeline.skip, h, hu]

theorem skip_unmatched {p : MatchingPipeline α} {x : α} {rest : List α}
    (h : p.reached_eos = false) (hu : p.unmatched = x :: rest) :
    p.skip.unmatched = rest := by
  simp [MatchingPipeline.skip, h, hu]

theorem skip_eos {p : MatchingPipeline α} {x : α} {rest : List α}
    (h : p.reached_eos = false) (hu : p.unmatched = x :: rest) :
    p.skip.reached_eos = rest.isEmpty := by
  simp [MatchingPipeline.skip, h, hu]

theorem skip_cursor {p : MatchingPipeline α} {x : α} {rest : List α}
    (h : p.reached_eos = false) (hu : p.unmatched = x :: rest) :
    p.skip.cursor = if rest.isEmpty then -1 else p.cursor + 1 := by
  simp [MatchingPipeline.skip, h, hu]

theorem wellFormed_new (input : List α) :
    WellFormed (MatchingPipeline.new input) := rfl

theorem wellFormed_not_eos {p : MatchingPipeline α} (hWF : WellFormed p)
    (h : p.reached_eos = false) : ∃ x rest, p.unmatched = x :: rest := by
  unfold WellFormed at hWF
  cases hu : p.unmatched with
  | nil => rw [hu] at hWF; simp [h] at hWF
  | cons x rest => exact ⟨x, rest, rfl⟩

theorem wellFormed_consume {p : MatchingPipeline α} (h : WellFormed p) :
    WellFormed p.consume := by
  by_cases he : p.reached_eos
  · rw [consume_of_eos he]; exact h
  · simp only [Bool.not_eq_true] at he
    obtain ⟨x, rest, hu⟩ := wellFormed_not_eos h he
    unfold WellFormed
    rw [consume_eos he hu, consume_unmatched he hu]

theorem wellFormed_skip {p : MatchingPipeline α} (h : WellFormed p) :
    WellFormed p.skip := by
  by_cases he : p.reached_eos
  · rw [skip_of_eos he]; exact h
  · simp only [Bool.not_eq_true] at he
    obtain ⟨x, rest, hu⟩ := wellFormed_not_eos h he
    unfold WellFormed
    rw [skip_eos he hu, skip_unmatched he hu]

/-- The combined invariant carried by every reachable state: the
`reached_eos` cache is accurate, `unmatched` never exceeds the input, and
the cursor counts the symbols removed from the input (`-1` once
exhausted). -/
theorem reachable_invariant {input : List α} {p : MatchingPipeline α}
    (h : Reachable input p) :
    WellFormed p ∧ p.unmatched.length ≤ input.length ∧
    (p.reached_eos = true → p.cursor = -1) ∧
    (p.reached_eos = false →
      p.cursor = (input.length : Int) - (p.unmatched.length : Int)) := by
  induction h with
  | init =>
    refine ⟨rfl, le_refl _, ?_, ?_⟩
    · intro he
      have hi : input.isEmpty = true := he
      simp [MatchingPipeline.new, hi]
    · intro he
      have hi : input.isEmpty = false := he
      simp [MatchingPipeline.new, hi]
  | @consume q hq ih =>
    obtain ⟨ihWF, ihLen, ihEos, ihCur⟩ := ih
    by_cases he : q.reached_eos
    · rw [consume_of_eos he]; exact ⟨ihWF, ihLen, ihEos, ihCur⟩
    · simp only [Bool.not_eq_true] at he
      obtain ⟨x, rest, hu⟩ := wellFormed_not_eos ihWF he
      have hlen : rest.length + 1 ≤ input.length := by
        have := ihLen; rw [hu] at this; simpa using this
      refine ⟨wellFormed_consume ihWF, ?_, ?_, ?_⟩
      · rw [consume_unmatched he hu]; omega
      · intro hre
        rw [consume_eos he hu] at hre
        rw [consume_cursor he hu, if_pos hre]
      · intro hre
        rw [consume_eos he hu] at hre
        rw [consume_cursor he hu, if_neg (by simp [hre]),
            consume_unmatched he hu, ihCur he, hu]
        simp
        omega
  | @skip q hq ih =>
    obtain ⟨ihWF, ihLen, ihEos, ihCur⟩ := ih
    by_cases he : q.reached_eos
    · rw [skip_of_eos he]; exact ⟨ihWF, ihLen, ihEos, ihCur⟩
    · simp only [Bool.not_eq_true] at he
      obtain ⟨x, rest, hu⟩ := wellFormed_not_eos ihWF he
      have hlen : rest.length + 1 ≤ input.length := by
        have := ihLen; rw [hu] at this; simpa using this
      refine ⟨wellFormed_skip ihWF, ?_, ?_, ?_⟩
      · rw [skip_unmatched he hu]; omega
      · intro hre
        rw [skip_eos he hu] at hre
        rw [skip_cursor he hu, if_pos hre]
      · intro hre
        rw [skip_eos he hu] at hre
        rw [skip_cursor he hu, if_neg (by simp [hre]),
            skip_unmatched he hu, ihCur he, hu]
        simp
        omega

theorem consume_of_nil {p : MatchingPipeline α} (hu : p.unmatched = []) :
    p.consume = p := by
  by_cases he : p.reached_eos
  · exact consume_of_eos he
  · simp [MatchingPipeline.consume, he, hu]

/-- C7: for every reachable pipeline state, `reached_eos` is true exactly
when `unmatched` is empty. -/
theorem c7_exhaustion_invariant {input : List α} {p : MatchingPipeline α}
    (h : Reachable input p) :
    p.reached_eos = true ↔ p.unmatched = [] := by
  have hWF := (reachable_invariant h).1
  unfold WellFormed at hWF
  rw [hWF]
  exact List.isEmpty_iff

/-- C7 witness: the invariant instantiated on the state obtained by one
`consume` from a fresh two-symbol pipeline. -/
theorem c7_exhaustion_invariant_witness :
    (MatchingPipeline.new ['a', 'b']).consume.reached_eos = true ↔
      (MatchingPipeline.new ['a', 'b']).consume.unmatched = [] :=
  c7_exhaustion_invariant (Reachable.consume Reachable.init)

/-- C8: every reachable pipeline state carries a cursor that, while the
pipeline is not exhausted, equals the non-negative count of symbols
consumed from the input, and that equals the sentinel `-1` exactly when
`reached_eos` is true.  (The cursor field is modelled from the spec and
the repository's tests, since src/src/lib.rs lacks it.) -/
theorem c8_cursor_bookkeeping {input : List α} {p : MatchingPipeline α}
    (h : Reachable input p) :
    (p.reached_eos = false →
      p.cursor = (input.length : Int) - (p.unmatched.length : Int) ∧
      0 ≤ p.cursor) ∧
    (p.cursor = -1 ↔ p.reached_eos = true) := by
  obtain ⟨hWF, hLen, hEos, hCur⟩ := reachable_invariant h
  constructor
  · intro hre
    have := hCur hre
    refine ⟨this, ?_⟩
    rw [this]
    omega
  · constructor
    · intro hc
      by_cases he : p.reached_eos
      · exact he
      · simp only [Bool.not_eq_true] at he
        have := hCur he
        rw [hc] at this
        omega
    · exact hEos

/-- C8 witness: cursor bookkeeping instantiated on the state obtained by
one `consume` then one `skip` from a fresh three-symbol pipeline. -/
theorem c8_cursor_bookkeeping_witness :
    ((MatchingPipeline.new ['F', 'a', 'x']).consume.skip.reached_eos = false →
      (MatchingPipeline.new ['F', 'a', 'x']).consume.skip.cursor =
        ((['F', 'a', 'x'] : List Char).length : Int) -
        ((MatchingPipeline.new ['F', 'a', 'x']).consume.skip.unmatched.length : Int) ∧
      0 ≤ (MatchingPipeline.new ['F', 'a', 'x']).consume.skip.cursor) ∧
    ((MatchingPipeline.new ['F', 'a', 'x']).consume.skip.cursor = -1 ↔
      (MatchingPipeline.new ['F', 'a', 'x']).consume.skip.reached_eos = true) :=
  c8_cursor_bookkeeping (Reachable.skip (Reachable.consume Reachable.init))

/-- C1 counterexample: the claim includes `skip` among the operations, but
`skip` discards the skipped symbol, so the state reached from a fresh
pipeline on input `['a', 'b']` by the single operation `skip` has
`matched ++ unmatched = ['b'] ≠ ['a', 'b']`. -/
theorem c1_skip_breaks_partition :
    Reachable ['a', 'b'] ((MatchingPipeline.new ['a', 'b']).skip) ∧
    ¬((MatchingPipeline.new ['a', 'b']).skip.matched ++
        (MatchingPipeline.new ['a', 'b']).skip.unmatched = ['a', 'b']) :=
  ⟨Reachable.skip Reachable.init, by decide⟩

/-- C1 (amended): for every state reachable from a fresh pipeline by any
sequence of operations that excludes `skip` (all matching operations move
symbols exclusively via `consume`), the concatenation of `matched` and
`unmatched` equals the original input sequence in original order. -/
theorem c1_partition_invariant {input : List α} {p : MatchingPipeline α}
    (h : ReachableNoSkip input p) :
    p.matched ++ p.unmatched = input := by
  induction h with
  | init => simp [MatchingPipeline.new]
  | @consume q hq ih =>
    by_cases he : q.reached_eos
    · rw [consume_of_eos he]; exact ih
    · simp only [Bool.not_eq_true] at he
      cases hu : q.unmatched with
      | nil => rw [consume_of_nil hu]; exact ih
      | cons x rest =>
        rw [consume_matched he hu, consume_unmatched he hu]
        rw [hu] at ih
        simpa using ih

/-- C1 witness: the partition invariant instantiated on the state obtained
by one `consume` from a fresh two-symbol pipeline. -/
theorem c1_partition_invariant_witness :
    (MatchingPipeline.new ['a', 'b']).consume.matched ++
      (MatchingPipeline.new ['a', 'b']).consume.unmatched = ['a', 'b'] :=
  c1_partition_invariant (ReachableNoSkip.consume ReachableNoSkip.init)

/-- Effect of `n` consumes on a well-formed state with at least `n`
remaining symbols: the first `n` symbols of `unmatched` move, in order, to
the tail of `matched`. -/
theorem consumeN_spec {p : MatchingPipeline α} (h : WellFormed p) :
    ∀ n : Nat, n ≤ p.unmatched.length →
      (consumeN p n).matched = p.matched ++ p.unmatched.take n ∧
      (consumeN p n).unmatched = p.unmatched.drop n ∧
      WellFormed (consumeN p n) := by
  intro n
  induction n generalizing p with
  | zero => intro _; simp [consumeN, h]
  | succ n ih =>
    intro hn
    cases hu : p.unmatched with
    | nil => rw [hu] at hn; simp at hn
    | cons x rest =>
      have he : p.reached_eos = false := by
        unfold WellFormed at h; rw [h, hu]; rfl
      have hc : consumeN p (n + 1) = consumeN p.consume n := rfl
      have hrest : n ≤ p.consume.unmatched.length := by
        rw [consume_unmatched he hu]
        rw [hu] at hn
        simpa using hn
      obtain ⟨hm, hum, hwf⟩ := ih (wellFormed_consume h) hrest
      rw [consume_matched he hu] at hm
      rw [consume_unmatched he hu] at hm hum
      refine ⟨?_, ?_, ?_⟩
      · rw [hc, hm]
        simp
      · rw [hc, hum]
        simp
      · rw [hc]; exact hwf

/-- Success branch of `match_pattern` on a well-formed state: the pattern
is consumed symbol by symbol, appended to `matched` in order. -/
theorem match_pattern_ok_spec {p : MatchingPipeline α} {pattern : List α}
    (h : WellFormed p) (hlen : pattern.length ≤ p.unmatched.length)
    (htake : p.unmatched.take pattern.length = pattern) :
    p.match_pattern pattern = .ok (consumeN p pattern.length) ∧
    (consumeN p pattern.length).matched = p.matched ++ pattern ∧
    (consumeN p pattern.length).unmatched = p.unmatched.drop pattern.length := by
  obtain ⟨hm, hum, _⟩ := consumeN_spec h pattern.length hlen
  refine ⟨?_, ?_, hum⟩
  · simp [MatchingPipeline.match_pattern, hlen, htake]
  · rw [hm, htake]

/-- Failure branch of `match_pattern`: the error carries the pattern and
the available slice of `unmatched`, which is `take pattern.length` in both
the too-short and the mismatch case. -/
theorem match_pattern_error_spec {p : MatchingPipeline α} {pattern : List α}
    (hfail : ¬(pattern.length ≤ p.unmatched.length ∧
        p.unmatched.take pattern.length = pattern)) :
    p.match_pattern pattern =
      .error (.wrongPattern pattern (p.unmatched.take pattern.length)) := by
  by_cases hlen : pattern.length ≤ p.unmatched.length
  · have htake : ¬(p.unmatched.take pattern.length = pattern) :=
      fun ht => hfail ⟨hlen, ht⟩
    simp [MatchingPipeline.match_pattern, hlen, htake]
  · have : p.unmatched.take pattern.length = p.unmatched :=
      List.take_of_length_le (by omega)
    simp [MatchingPipeline.match_pattern, hlen, this]

/-- C2: `match_pattern` is atomic.  On success it consumes exactly
`pattern.length` symbols, appended to `matched` in order, leaving
`unmatched` shorn of its matched head; on failure it returns
`WrongPattern` carrying the pattern and exactly the available slice of
`unmatched` (`take` returns the whole of `unmatched` when fewer than
`pattern.length` symbols remain — never padded), consuming nothing. -/
theorem c2_match_pattern_atomicity (p : MatchingPipeline α)
    (pattern : List α) (h : WellFormed p) :
    (pattern.length ≤ p.unmatched.length ∧
        p.unmatched.take pattern.length = pattern →
      p.match_pattern pattern = .ok (consumeN p pattern.length) ∧
      (consumeN p pattern.length).matched = p.matched ++ pattern ∧
      (consumeN p pattern.length).unmatched =
        p.unmatched.drop pattern.length) ∧
    (¬(pattern.length ≤ p.unmatched.length ∧
        p.unmatched.take pattern.length = pattern) →
      p.match_pattern pattern =
        .error (.wrongPattern pattern (p.unmatched.take pattern.length))) :=
  ⟨fun hc => match_pattern_ok_spec h hc.1 hc.2, match_pattern_error_spec⟩

/-- C2 witness: the success branch instantiated on the pipeline for
`"0x85AD Q"` and the pattern `"0x85AD"` (cf. the `should_match_pattern`
test). -/
theorem c2_match_pattern_atomicity_witness :
    (MatchingPipeline.new ['0', 'x', '8', '5', 'A', 'D', ' ', 'Q']).match_pattern
        ['0', 'x', '8', '5', 'A', 'D'] =
      .ok (consumeN (MatchingPipeline.new ['0', 'x', '8', '5', 'A', 'D', ' ', 'Q']) 6) ∧
    (consumeN (MatchingPipeline.new ['0', 'x', '8', '5', 'A', 'D', ' ', 'Q']) 6).matched =
      (MatchingPipeline.new ['0', 'x', '8', '5', 'A', 'D', ' ', 'Q']).matched ++
        ['0', 'x', '8', '5', 'A', 'D'] ∧
    (consumeN (MatchingPipeline.new ['0', 'x', '8', '5', 'A', 'D', ' ', 'Q']) 6).unmatched =
      (MatchingPipeline.new ['0', 'x', '8', '5', 'A', 'D', ' ', 'Q']).unmatched.drop 6 :=
  (c2_match_pattern_atomicity
      (MatchingPipeline.new ['0', 'x', '8', '5', 'A', 'D', ' ', 'Q'])
      ['0', 'x', '8', '5', 'A', 'D'] (wellFormed_new _)).1 (by decide)

/-- C10: digesting a matched character run with the string-collecting
digester and feeding the resulting string into a fresh pipeline yields a
pipeline whose input sequence is exactly the original run, and re-matching
that run succeeds and reproduces it as the matched content. -/
theorem c10_digestion_round_trip (m : List Char) :
    (from_str (StringDigester.digest m)).unmatched = m ∧
    (from_str (StringDigester.digest m)).match_pattern m =
      .ok (consumeN (from_str (StringDigester.digest m)) m.length) ∧
    (consumeN (from_str (StringDigester.digest m)) m.length).matched = m ∧
    (consumeN (from_str (StringDigester.digest m)) m.length).unmatched = [] := by
  have hp : from_str (StringDigester.digest m) = MatchingPipeline.new m := rfl
  have hWF : WellFormed (from_str (StringDigester.digest m)) := by
    rw [hp]; exact wellFormed_new m
  have hu : (from_str (StringDigester.digest m)).unmatched = m := rfl
  have hmt : (from_str (StringDigester.digest m)).matched = [] := rfl
  obtain ⟨hok, hm, hum⟩ :=
    match_pattern_ok_spec hWF (by rw [hu]) (by rw [hu]; simp)
  refine ⟨hu, hok, ?_, ?_⟩
  · rw [hm, hmt]; rfl
  · rw [hum, hu]; simp

/-! ### Quantifier lemmas -/

/-- Once the `AtMost` loop has recorded a success, it returns the greedily
accumulated state, whatever happens next. -/
theorem at_most_go_true (cb : MatchingPipeline α → PipelineResult α) :
    ∀ (k : Nat) (q : MatchingPipeline α),
      at_most_go cb k true q = .ok (run_at_most cb k q) := by
  intro k
  induction k with
  | zero => intro q; rfl
  | succ k ih =>
    intro q
    cases hq : cb q with
    | ok s =>
      cases k with
      | zero =>
        rw [at_most_go.eq_2, hq, run_at_most.eq_2, hq]
        rfl
      | succ k' =>
        rw [at_most_go.eq_2, hq, run_at_most.eq_2, hq]
        exact ih s
    | error e =>
      rw [at_most_go.eq_2, hq, run_at_most.eq_2, hq]
      rfl

/-- C5: the `AtMost(n)` quantifier is asymmetric on failure.  If the
sub-combinator fails immediately (zero successes) the failure is
propagated verbatim; after the first success every later failure is
swallowed and the greedily accumulated state (the sub-combinator iterated
to its first failure, at most `n` times) is returned as a success. -/
theorem c5_at_most_asymmetric_failure
    (cb : MatchingPipeline α → PipelineResult α) (target : Nat)
    (p : MatchingPipeline α) (ht : 1 ≤ target) :
    (∀ e, cb p = .error e → with_quantifier_at_most p target cb = .error e) ∧
    (∀ s, cb p = .ok s →
      with_quantifier_at_most p target cb =
        .ok (run_at_most cb (target - 1) s)) := by
  cases target with
  | zero => omega
  | succ k =>
    constructor
    · intro e he
      simp [with_quantifier_at_most, at_most_go, he]
    · intro s hs
      cases k with
      | zero => simp [with_quantifier_at_most, at_most_go, hs, run_at_most]
      | succ k' =>
        simp [with_quantifier_at_most, at_most_go, hs, at_most_go_true]

/-- C5 witness: `AtMost(3)` over `match_symbol('a')` on input `"aaaax"`
(cf. the `quantifier_at_most` test) takes the success branch: the result
is the accumulated state after greedily matching two more `'a'`s. -/
theorem c5_at_most_asymmetric_failure_witness :
    with_quantifier_at_most (MatchingPipeline.new ['a', 'a', 'a', 'a', 'x']) 3
        (fun q => q.match_symbol 'a') =
      .ok (run_at_most (fun q => q.match_symbol 'a') 2
        (MatchingPipeline.new ['a', 'a', 'a', 'a', 'x']).consume) :=
  (c5_at_most_asymmetric_failure (fun q => q.match_symbol 'a') 3
      (MatchingPipeline.new ['a', 'a', 'a', 'a', 'x']) (by decide)).2
    (MatchingPipeline.new ['a', 'a', 'a', 'a', 'x']).consume (by decide)

/-- One callback success extends an iteration chain on the left. -/
theorem CbIter.head {cb : MatchingPipeline α → PipelineResult α}
    {p s q : MatchingPipeline α} (h : cb p = .ok s) (hit : CbIter cb s q) :
    CbIter cb p q := by
  induction hit with
  | refl => exact CbIter.step (CbIter.refl p) h
  | step hit hok ih => exact CbIter.step ih hok

/-- Every error produced by the lib.rs `Exactly` loop (at a positive
target) originates at an iterate of the sub-combinator: `UnexpectedEos` if
that iterate had reached end of stream, otherwise verbatim the
sub-combinator's own error there. -/
theorem exactly_lib_go_error_iter
    (cb : MatchingPipeline α → PipelineResult α) :
    ∀ (k : Nat) (p : MatchingPipeline α) (e : PipelineError α),
      exactly_lib_go cb (k + 1) p = .error e →
      ∃ q, CbIter cb p q ∧
        ((q.reached_eos = true ∧ e = .unexpectedEos) ∨
         (q.reached_eos = false ∧ cb q = .error e)) := by
  intro k
  induction k with
  | zero =>
    intro p e hres
    simp only [exactly_lib_go] at hres
    by_cases he : p.reached_eos
    · rw [if_pos he] at hres
      cases hres
      exact ⟨p, CbIter.refl p, Or.inl ⟨he, rfl⟩⟩
    · simp only [Bool.not_eq_true] at he
      rw [if_neg (by simp [he])] at hres
      cases hcb : cb p with
      | error e' =>
        rw [hcb] at hres
        cases hres
        exact ⟨p, CbIter.refl p, Or.inr ⟨he, hcb⟩⟩
      | ok s => rw [hcb] at hres; cases hres
  | succ k' ih =>
    intro p e hres
    rw [exactly_lib_go.eq_2] at hres
    by_cases he : p.reached_eos
    · rw [if_pos he] at hres
      cases hres
      exact ⟨p, CbIter.refl p, Or.inl ⟨he, rfl⟩⟩
    · simp only [Bool.not_eq_true] at he
      rw [if_neg (by simp [he])] at hres
      cases hcb : cb p with
      | error e' =>
        rw [hcb] at hres
        cases hres
        exact ⟨p, CbIter.refl p, Or.inr ⟨he, hcb⟩⟩
      | ok s =>
        rw [hcb] at hres
        obtain ⟨q, hit, hq⟩ := ih s e hres
        exact ⟨q, CbIter.head hcb hit, hq⟩

/-- One-step equations for the lib.rs `Exactly` loop: on the exhausted
branch the loop exits with `UnexpectedEos`. -/
theorem exactly_lib_go_of_eos {cb : MatchingPipeline α → PipelineResult α}
    {q : MatchingPipeline α} (he : q.reached_eos = true) (m : Nat) :
    exactly_lib_go cb (m + 1) q = .error .unexpectedEos := by
  rw [exactly_lib_go.eq_2, if_pos he]

/-- On a non-exhausted state where the callback fails, the lib.rs
`Exactly` loop returns the callback's error verbatim, whatever the
remaining count. -/
theorem exactly_lib_go_of_error {cb : MatchingPipeline α → PipelineResult α}
    {q : MatchingPipeline α} {e : PipelineError α}
    (he : q.reached_eos = false) (hcb : cb q = .error e) (m : Nat) :
    exactly_lib_go cb (m + 1) q = .error e := by
  rw [exactly_lib_go.eq_2, if_neg (by simp [he]), hcb]

/-- On a non-exhausted state where the callback succeeds with at least two
successes still required, the lib.rs `Exactly` loop continues at the new
state with one success fewer required. -/
theorem exactly_lib_go_of_ok {cb : MatchingPipeline α → PipelineResult α}
    {q s : MatchingPipeline α} (he : q.reached_eos = false)
    (hcb : cb q = .ok s) (m : Nat) :
    exactly_lib_go cb (m + 2) q = exactly_lib_go cb (m + 1) s := by
  rw [exactly_lib_go.eq_2, if_neg (by simp [he]), hcb]

/-- Where the callback fails, the quantifiers.rs `Exactly` loop returns
the callback's error verbatim, whatever the remaining count. -/
theorem exactly_go_of_error {cb : MatchingPipeline α → PipelineResult α}
    {q : MatchingPipeline α} {e : PipelineError α}
    (hcb : cb q = .error e) (m : Nat) :
    exactly_go cb (m + 1) q = .error e := by
  rw [exactly_go.eq_2, hcb]

/-- Where the callback succeeds with at least two successes still
required, the quantifiers.rs `Exactly` loop continues at the new state
with one success fewer required. -/
theorem exactly_go_of_ok {cb : MatchingPipeline α → PipelineResult α}
    {q s : MatchingPipeline α} (hcb : cb q = .ok s) (m : Nat) :
    exactly_go cb (m + 2) q = exactly_go cb (m + 1) s := by
  rw [exactly_go.eq_2, hcb]

/-- Running the lib.rs `Exactly` loop through `j < n` recorded successes
leaves it at the reached state with `n - j` successes still required. -/
theorem exactly_lib_path_through {cb : MatchingPipeline α → PipelineResult α}
    {j : Nat} {p q : MatchingPipeline α} (hpath : ExactlyPath cb j p q) :
    ∀ n : Nat, j < n → exactly_lib_go cb n p = exactly_lib_go cb (n - j) q := by
  induction hpath with
  | refl p => intro n hn; simp
  | @step j p q r hpath he hcb ih =>
    intro n hn
    rw [ih n (by omega)]
    have h2 : n - j = (n - (j + 1) - 1) + 2 := by omega
    rw [h2, exactly_lib_go_of_ok he hcb]
    have h3 : n - (j + 1) - 1 + 1 = n - (j + 1) := by omega
    rw [h3]

/-- Running the quantifiers.rs `Exactly` loop through `j < n` successes
leaves it at the reached state with `n - j` successes still required. -/
theorem exactly_chain_through {cb : MatchingPipeline α → PipelineResult α}
    {j : Nat} {p q : MatchingPipeline α} (hchain : CbChain cb j p q) :
    ∀ n : Nat, j < n → exactly_go cb n p = exactly_go cb (n - j) q := by
  induction hchain with
  | refl p => intro n hn; simp
  | @step j p q r hchain hcb ih =>
    intro n hn
    rw [ih n (by omega)]
    have h2 : n - j = (n - (j + 1) - 1) + 2 := by omega
    rw [h2, exactly_go_of_ok hcb]
    have h3 : n - (j + 1) - 1 + 1 = n - (j + 1) := by omega
    rw [h3]

/-- C3 counterexample: under the cited quantifiers.rs
`WithQuantifier<Exactly>` implementation, exhausting the stream before
reaching n successes does not fail with `UnexpectedEndOfStream`:
`Exactly(2)` over `match_pattern "ab"` on input `"ab"` succeeds once
(consuming everything), then applies the sub-combinator to the exhausted
pipeline — that implementation has no end-of-stream check — and returns
its `WrongPattern` error with an empty actual slice instead. -/
theorem c3_exhaustion_not_unexpectedEos :
    with_quantifier_exactly (MatchingPipeline.new ['a', 'b']) 2
        (fun r => r.match_pattern ['a', 'b']) =
      .error (.wrongPattern ['a', 'b'] []) ∧
    with_quantifier_exactly (MatchingPipeline.new ['a', 'b']) 2
        (fun r => r.match_pattern ['a', 'b']) ≠
      .error .unexpectedEos := by
  decide

/-- C3 (amended): no partial credit, forward direction.  For both cited
implementations, a sub-combinator failure strictly before `n` successes
along the loop's execution path makes the whole quantifier return exactly
that error.  For the lib.rs `Quantifiable<Exactly>` (whose path re-checks
end of stream before every application), reaching end of stream before
`n` successes makes it return `UnexpectedEos`; the quantifiers.rs
`WithQuantifier<Exactly>` has no end-of-stream check of its own, so for it
only verbatim propagation of the sub-combinator's failure holds (see the
counterexample for its behaviour at exhaustion). -/
theorem c3_exactly_no_partial_credit
    (cb : MatchingPipeline α → PipelineResult α) (n j : Nat)
    (p q : MatchingPipeline α) (hj : j < n) :
    (ExactlyPath cb j p q →
      (q.reached_eos = true →
        with_quantifier_exactly_lib p n cb = .error .unexpectedEos) ∧
      (∀ e, q.reached_eos = false → cb q = .error e →
        with_quantifier_exactly_lib p n cb = .error e)) ∧
    (CbChain cb j p q →
      ∀ e, cb q = .error e →
        with_quantifier_exactly p n cb = .error e) := by
  have hm : n - j = (n - j - 1) + 1 := by omega
  constructor
  · intro hpath
    have hthrough := exactly_lib_path_through hpath n hj
    constructor
    · intro he
      unfold with_quantifier_exactly_lib
      rw [hthrough, hm, exactly_lib_go_of_eos he]
    · intro e he hcb
      unfold with_quantifier_exactly_lib
      rw [hthrough, hm, exactly_lib_go_of_error he hcb]
  · intro hchain e hcb
    have hthrough := exactly_chain_through hchain n hj
    unfold with_quantifier_exactly
    rw [hthrough, hm, exactly_go_of_error hcb]

/-- C3 witness: `Exactly(3)` over `match_pattern "aba"` on input
`"abaabaO"` (cf. the `quantifier_exactly_do_not_match` test).  Both
implementations succeed twice, reach the state with `matched = "abaaba"`
and `unmatched = "O"`, fail there, and return that exact `WrongPattern`
error — no partial credit. -/
theorem c3_exactly_no_partial_credit_witness :
    with_quantifier_exactly_lib
        (MatchingPipeline.new ['a', 'b', 'a', 'a', 'b', 'a', 'O']) 3
        (fun r => r.match_pattern ['a', 'b', 'a']) =
      .error (.wrongPattern ['a', 'b', 'a'] ['O']) ∧
    with_quantifier_exactly
        (MatchingPipeline.new ['a', 'b', 'a', 'a', 'b', 'a', 'O']) 3
        (fun r => r.match_pattern ['a', 'b', 'a']) =
      .error (.wrongPattern ['a', 'b', 'a'] ['O']) := by
  have h1 : ExactlyPath (fun r => r.match_pattern ['a', 'b', 'a']) 1
      (MatchingPipeline.new ['a', 'b', 'a', 'a', 'b', 'a', 'O'])
      ⟨['a', 'b', 'a'], ['a', 'b', 'a', 'O'], false, 3⟩ :=
    ExactlyPath.step (ExactlyPath.refl _) (by decide) (by decide)
  have h2 : ExactlyPath (fun r => r.match_pattern ['a', 'b', 'a']) 2
      (MatchingPipeline.new ['a', 'b', 'a', 'a', 'b', 'a', 'O'])
      ⟨['a', 'b', 'a', 'a', 'b', 'a'], ['O'], false, 6⟩ :=
    ExactlyPath.step h1 (by decide) (by decide)
  have h3 : CbChain (fun r => r.match_pattern ['a', 'b', 'a']) 1
      (MatchingPipeline.new ['a', 'b', 'a', 'a', 'b', 'a', 'O'])
      ⟨['a', 'b', 'a'], ['a', 'b', 'a', 'O'], false, 3⟩ :=
    CbChain.step (CbChain.refl _) (by decide)
  have h4 : CbChain (fun r => r.match_pattern ['a', 'b', 'a']) 2
      (MatchingPipeline.new ['a', 'b', 'a', 'a', 'b', 'a', 'O'])
      ⟨['a', 'b', 'a', 'a', 'b', 'a'], ['O'], false, 6⟩ :=
    CbChain.step h3 (by decide)
  constructor
  · exact ((c3_exactly_no_partial_credit
        (fun r => r.match_pattern ['a', 'b', 'a']) 3 2
        (MatchingPipeline.new ['a', 'b', 'a', 'a', 'b', 'a', 'O'])
        ⟨['a', 'b', 'a', 'a', 'b', 'a'], ['O'], false, 6⟩
        (by decide)).1 h2).2
      (.wrongPattern ['a', 'b', 'a'] ['O']) (by decide) (by decide)
  · exact (c3_exactly_no_partial_credit
        (fun r => r.match_pattern ['a', 'b', 'a']) 3 2
        (MatchingPipeline.new ['a', 'b', 'a', 'a', 'b', 'a', 'O'])
        ⟨['a', 'b', 'a', 'a', 'b', 'a'], ['O'], false, 6⟩
        (by decide)).2 h4
      (.wrongPattern ['a', 'b', 'a'] ['O']) (by decide)

/-- C4 counterexample: on an exhausted pipeline the lib.rs `Exactly(1)`
quantifier short-circuits to `UnexpectedEos` without consulting the
sub-combinator, while the sub-combinator `match_until ['a']` applied
directly succeeds — so `Exactly(1)` with C is not always the same as one
direct application of C. -/
theorem c4_exactly_one_not_identity_at_eos :
    with_quantifier_exactly_lib (MatchingPipeline.new ([] : List Char)) 1
        (fun q => q.match_until ['a']) ≠
      (MatchingPipeline.new ([] : List Char)).match_until ['a'] := by
  decide

/-- C4 (amended): `Exactly(1)` with sub-combinator C is identical to one
direct application of C for the quantifiers.rs implementation
(`WithQuantifier<Exactly>`) unconditionally, and for the lib.rs
implementation (`Quantifiable<Exactly>`) whenever the pipeline has not
reached end of stream (on an exhausted pipeline the latter returns
`UnexpectedEos` without applying C). -/
theorem c4_exactly_one_identity (cb : MatchingPipeline α → PipelineResult α)
    (p : MatchingPipeline α) :
    with_quantifier_exactly p 1 cb = cb p ∧
    (p.reached_eos = false → with_quantifier_exactly_lib p 1 cb = cb p) := by
  constructor
  · show exactly_go cb 1 p = cb p
    rw [exactly_go.eq_2]
    cases hq : cb p with
    | ok s => rfl
    | error e => rfl
  · intro he
    show exactly_lib_go cb 1 p = cb p
    rw [exactly_lib_go.eq_2, if_neg (by simp [he])]
    cases hq : cb p with
    | ok s => rfl
    | error e => rfl

/-- C4 witness: both identities instantiated with `match_symbol('a')` on a
fresh, non-exhausted pipeline for `"ab"`. -/
theorem c4_exactly_one_identity_witness :
    with_quantifier_exactly (MatchingPipeline.new ['a', 'b']) 1
        (fun q => q.match_symbol 'a') =
      (MatchingPipeline.new ['a', 'b']).match_symbol 'a' ∧
    with_quantifier_exactly_lib (MatchingPipeline.new ['a', 'b']) 1
        (fun q => q.match_symbol 'a') =
      (MatchingPipeline.new ['a', 'b']).match_symbol 'a' :=
  ⟨(c4_exactly_one_identity (fun q => q.match_symbol 'a')
      (MatchingPipeline.new ['a', 'b'])).1,
   (c4_exactly_one_identity (fun q => q.match_symbol 'a')
      (MatchingPipeline.new ['a', 'b'])).2 (by decide)⟩

/-- The `match_until` loop satisfies the delimiter specification: run with
fuel equal to the length of `unmatched`, it consumes up to and through the
first delimiter occurrence, or everything if there is none. -/
theorem match_until_go_spec (delim : List α) :
    ∀ (u : List α) (p : MatchingPipeline α), WellFormed p → p.unmatched = u →
      MatchUntilSpec p delim (match_until_go delim u.length p) := by
  intro u
  induction u with
  | nil =>
    intro p hWF hu
    have heq : match_until_go delim ([] : List α).length p = p := rfl
    have heos : p.reached_eos = true := by
      unfold WellFormed at hWF
      rw [hWF, hu]
      rfl
    unfold MatchUntilSpec
    rw [heq, hu]
    by_cases hd : delim = []
    · simp [findDelim, hd]
    · simp [findDelim, hd, heos]
  | cons x rest ih =>
    intro p hWF hu
    have he : p.reached_eos = false := by
      unfold WellFormed at hWF
      rw [hWF, hu]
      rfl
    have hlen : (x :: rest).length = rest.length + 1 := rfl
    by_cases hcond : delim.length ≤ p.unmatched.length ∧
        p.unmatched.take delim.length = delim
    · obtain ⟨hok, hm, hum⟩ := match_pattern_ok_spec hWF hcond.1 hcond.2
      have hgo : match_until_go delim (x :: rest).length p =
          consumeN p delim.length := by
        rw [hlen, match_until_go.eq_2, if_neg (by simp [he]), hok]
      have hfd : findDelim delim p.unmatched = some 0 := by
        rw [hu]
        rw [hu] at hcond
        rw [findDelim.eq_2, if_pos hcond]
      unfold MatchUntilSpec
      rw [hfd, hgo]
      constructor
      · rw [hm, Nat.zero_add, hcond.2]
      · rw [hum, Nat.zero_add]
    · have herr := match_pattern_error_spec hcond
      have hgo : match_until_go delim (x :: rest).length p =
          match_until_go delim rest.length p.consume := by
        rw [hlen, match_until_go.eq_2, if_neg (by simp [he]), herr]
      have hcu : p.consume.unmatched = rest := consume_unmatched he hu
      have hcm : p.consume.matched = p.matched ++ [x] := consume_matched he hu
      have hspec := ih p.consume (wellFormed_consume hWF) hcu
      have hfd : findDelim delim p.unmatched =
          (findDelim delim rest).map (fun k => k + 1) := by
        rw [hu]
        rw [hu] at hcond
        rw [findDelim.eq_2, if_neg hcond]
      unfold MatchUntilSpec at hspec ⊢
      rw [hfd, hgo, hu]
      rw [hcu] at hspec
      cases hk : findDelim delim rest with
      | some k =>
        rw [hk] at hspec
        simp only [Option.map_some']
        have harith : k + 1 + delim.length = (k + delim.length) + 1 := by omega
        rw [harith, List.take_succ_cons, List.drop_succ_cons]
        refine ⟨?_, hspec.2⟩
        rw [hspec.1, hcm]
        simp
      | none =>
        rw [hk] at hspec
        simp only [Option.map_none']
        refine ⟨?_, hspec.2.1, hspec.2.2⟩
        rw [hspec.1, hcm]
        simp

/-- C6: `match_until` never fails.  The call always returns `Ok`; if the
delimiter pattern matches at some (first) position `k` of the remaining
input, exactly the symbols up to and through the delimiter are consumed
into `matched`, and if the stream is exhausted without the delimiter
matching, the entire remainder is consumed and the resulting state is
exhausted. -/
theorem c6_match_until_never_fails (p : MatchingPipeline α) (delim : List α)
    (h : WellFormed p) :
    p.match_until delim = .ok (match_until_go delim p.unmatched.length p) ∧
    MatchUntilSpec p delim (match_until_go delim p.unmatched.length p) :=
  ⟨rfl, match_until_go_spec delim p.unmatched p h rfl⟩

/-- C6 witness: `match_until [',']` on input `"ab,c"` (delimiter present)
instantiates the specification; the delimiter is found and consumed. -/
theorem c6_match_until_never_fails_witness :
    (MatchingPipeline.new ['a', 'b', ',', 'c']).match_until [','] =
      .ok (match_until_go [','] (MatchingPipeline.new ['a', 'b', ',', 'c']).unmatched.length
        (MatchingPipeline.new ['a', 'b', ',', 'c'])) ∧
    MatchUntilSpec (MatchingPipeline.new ['a', 'b', ',', 'c']) [',']
      (match_until_go [','] (MatchingPipeline.new ['a', 'b', ',', 'c']).unmatched.length
        (MatchingPipeline.new ['a', 'b', ',', 'c'])) :=
  c6_match_until_never_fails (MatchingPipeline.new ['a', 'b', ',', 'c']) [',']
    (wellFormed_new _)

/-- Fuel does not matter for the `AtLeast` loop once it exceeds the length
of `unmatched`, provided every callback success strictly shrinks
`unmatched`. -/
theorem at_least_go_fuel_stable (cb : MatchingPipeline α → PipelineResult α)
    (target : Nat)
    (H : ∀ q s, cb q = .ok s → s.unmatched.length < q.unmatched.length) :
    ∀ (L : Nat) (p : MatchingPipeline α) (n fuel1 fuel2 : Nat),
      p.unmatched.length ≤ L → p.unmatched.length < fuel1 →
      p.unmatched.length < fuel2 →
      at_least_go cb target fuel1 n p = at_least_go cb target fuel2 n p := by
  intro L
  induction L with
  | zero =>
    intro p n fuel1 fuel2 hL h1 h2
    cases fuel1 with
    | zero => omega
    | succ m1 =>
      cases fuel2 with
      | zero => omega
      | succ m2 =>
        rw [at_least_go.eq_2, at_least_go.eq_2]
        cases hq : cb p with
        | ok s =>
          have := H p s hq
          omega
        | error e => rfl
  | succ L ih =>
    intro p n fuel1 fuel2 hL h1 h2
    cases fuel1 with
    | zero => omega
    | succ m1 =>
      cases fuel2 with
      | zero => omega
      | succ m2 =>
        rw [at_least_go.eq_2, at_least_go.eq_2]
        cases hq : cb p with
        | ok s =>
          have hs := H p s hq
          exact ih s (n + 1) m1 m2 (by omega) (by omega) (by omega)
        | error e => rfl

/-- With fuel `unmatched.length + 1` the `AtLeast` loop always reaches the
callback-failure exit, provided every callback success strictly shrinks
`unmatched`: the loop terminates. -/
theorem at_least_go_isSome (cb : MatchingPipeline α → PipelineResult α)
    (target : Nat)
    (H : ∀ q s, cb q = .ok s → s.unmatched.length < q.unmatched.length) :
    ∀ (L : Nat) (p : MatchingPipeline α) (n : Nat),
      p.unmatched.length ≤ L →
      (at_least_go cb target (p.unmatched.length + 1) n p).isSome = true := by
  intro L
  induction L with
  | zero =>
    intro p n hL
    rw [at_least_go.eq_2]
    cases hq : cb p with
    | ok s =>
      have := H p s hq
      omega
    | error e => rfl
  | succ L ih =>
    intro p n hL
    rw [at_least_go.eq_2]
    cases hq : cb p with
    | ok s =>
      have hs := H p s hq
      show (at_least_go cb target p.unmatched.length (n + 1) s).isSome = true
      rw [at_least_go_fuel_stable cb target H s.unmatched.length s (n + 1)
        p.unmatched.length (s.unmatched.length + 1) (le_refl _) (by omega)
        (by omega)]
      exact ih s (n + 1) (by omega)
    | error e => rfl

/-- C9: termination of the quantifier loops.  `Exactly(n)` and `AtMost(n)`
are bounded by their target count by construction (`exactly_lib_go`,
`exactly_go` and `at_most_go` are structurally recursive on it).  The
`AtLeast(n)` loop has no end-of-stream check and no bound of its own, and
stops only when the sub-combinator fails; whenever every successful
application of the sub-combinator strictly decreases the length of
`unmatched`, fuel `unmatched.length + 1` suffices: any larger fuel gives
the same result, and the loop reaches its exit (`isSome`).  `ZeroOrMore`
is `AtLeast(0)` by definition. -/
theorem c9_quantifier_loop_termination
    (cb : MatchingPipeline α → PipelineResult α) (target n fuel : Nat)
    (p : MatchingPipeline α)
    (H : ∀ q s, cb q = .ok s → s.unmatched.length < q.unmatched.length)
    (hfuel : p.unmatched.length < fuel) :
    at_least_go cb target fuel n p =
      at_least_go cb target (p.unmatched.length + 1) n p ∧
    (at_least_go cb target fuel n p).isSome = true ∧
    with_quantifier_zero_or_more p cb = with_quantifier_at_least p 0 cb := by
  have h1 := at_least_go_fuel_stable cb target H p.unmatched.length p n fuel
    (p.unmatched.length + 1) (le_refl _) hfuel (by omega)
  have h2 := at_least_go_isSome cb target H p.unmatched.length p n (le_refl _)
  exact ⟨h1, by rw [h1]; exact h2, rfl⟩

/-- A successful `match_symbol` strictly shrinks `unmatched`: the
decreasing-callback hypothesis of the termination theorem holds for it. -/
theorem match_symbol_ok_decreases (a : α) :
    ∀ q s : MatchingPipeline α, q.match_symbol a = .ok s →
      s.unmatched.length < q.unmatched.length := by
  intro q s h
  by_cases he : q.reached_eos
  · simp [MatchingPipeline.match_symbol, he] at h
  · simp only [Bool.not_eq_true] at he
    cases hu : q.unmatched with
    | nil => simp [MatchingPipeline.match_symbol, he, hu] at h
    | cons x rest =>
      by_cases hx : a = x
      · simp [MatchingPipeline.match_symbol, he, hu, hx] at h
        rw [← h, consume_unmatched he hu]
        simp [hu]
      · simp [MatchingPipeline.match_symbol, he, hu, hx] at h

/-- C9 witness: `ZeroOrMore`-style `AtLeast(0)` over `match_symbol('b')`
on input `"bb"`: fuel `5` and the canonical fuel `3` agree, and the loop
terminates. -/
theorem c9_quantifier_loop_termination_witness :
    at_least_go (fun q => q.match_symbol 'b') 0 5 0
        (MatchingPipeline.new ['b', 'b']) =
      at_least_go (fun q => q.match_symbol 'b') 0 3 0
        (MatchingPipeline.new ['b', 'b']) ∧
    (at_least_go (fun q => q.match_symbol 'b') 0 5 0
        (MatchingPipeline.new ['b', 'b'])).isSome = true ∧
    with_quantifier_zero_or_more (MatchingPipeline.new ['b', 'b'])
        (fun q => q.match_symbol 'b') =
      with_quantifier_at_least (MatchingPipeline.new ['b', 'b']) 0
        (fun q => q.match_symbol 'b') :=
  c9_quantifier_loop_termination (fun q => q.match_symbol 'b') 0 0 5
    (MatchingPipeline.new ['b', 'b'])
    (match_symbol_ok_decreases 'b') (by decide)

/-! ### Coverage: every operation stays within the consume/skip closure

The reachability relations used by the invariant theorems close over
single `consume` / `skip` steps only.  The lemmas below justify that this
closure covers all operations of the library: a successful `match_symbol`,
`match_any_of` or `match_any_of_group` is one `consume`; a successful
`match_pattern` is an iterated `consume`; the `match_until` /
`match_until_group` loops and the quantifier loops only move through
states produced by these. -/

theorem match_symbol_ok_eq_consume {p q : MatchingPipeline α} {a : α}
    (h : p.match_symbol a = .ok q) : q = p.consume := by
  by_cases he : p.reached_eos
  · simp [MatchingPipeline.match_symbol, he] at h
  · simp only [Bool.not_eq_true] at he
    cases hu : p.unmatched with
    | nil => simp [MatchingPipeline.match_symbol, he, hu] at h
    | cons x rest =>
      by_cases hx : a = x
      · simp [MatchingPipeline.match_symbol, he, hu, hx] at h
        exact h.symm
      · simp [MatchingPipeline.match_symbol, he, hu, hx] at h

theorem match_any_of_ok_eq_consume {p q : MatchingPipeline α}
    {symbols : List α} (h : p.match_any_of symbols = .ok q) :
    q = p.consume := by
  by_cases he : p.reached_eos
  · simp [MatchingPipeline.match_any_of, he] at h
  · simp only [Bool.not_eq_true] at he
    cases hu : p.unmatched with
    | nil => simp [MatchingPipeline.match_any_of, he, hu] at h
    | cons x rest =>
      by_cases hx : x ∈ symbols
      · simp [MatchingPipeline.match_any_of, he, hu, hx] at h
        exact h.symm
      · simp [MatchingPipeline.match_any_of, he, hu, hx] at h

theorem match_any_of_group_ok_eq_consume {p q : MatchingPipeline α}
    {group : SymbolGroup α} (h : p.match_any_of_group group = .ok q) :
    q = p.consume := by
  by_cases he : p.reached_eos
  · simp [MatchingPipeline.match_any_of_group, he] at h
  · simp only [Bool.not_eq_true] at he
    cases hu : p.unmatched with
    | nil => simp [MatchingPipeline.match_any_of_group, he, hu] at h
    | cons x rest =>
      by_cases hx : group.accept x
      · simp [MatchingPipeline.match_any_of_group, he, hu, hx] at h
        exact h.symm
      · simp [MatchingPipeline.match_any_of_group, he, hu, hx] at h

theorem match_pattern_ok_eq_consumeN {p q : MatchingPipeline α}
    {pattern : List α} (h : p.match_pattern pattern = .ok q) :
    q = consumeN p pattern.length := by
  by_cases hlen : pattern.length ≤ p.unmatched.length
  · by_cases htake : p.unmatched.take pattern.length = pattern
    · simp [MatchingPipeline.match_pattern, hlen, htake] at h
      exact h.symm
    · simp [MatchingPipeline.match_pattern, hlen, htake] at h
  · simp [MatchingPipeline.match_pattern, hlen] at h

theorem reachable_consumeN {input : List α} {p : MatchingPipeline α}
    (h : Reachable input p) :
    ∀ n : Nat, Reachable input (consumeN p n) := by
  intro n
  induction n generalizing p with
  | zero => exact h
  | succ n ih => exact ih (Reachable.consume h)

theorem reachable_match_until_go {input : List α} (delim : List α) :
    ∀ (fuel : Nat) (p : MatchingPipeline α), Reachable input p →
      Reachable input (match_until_go delim fuel p) := by
  intro fuel
  induction fuel with
  | zero => intro p h; exact h
  | succ fuel ih =>
    intro p h
    rw [match_until_go.eq_2]
    by_cases he : p.reached_eos
    · rw [if_pos he]; exact h
    · rw [if_neg he]
      cases hm : p.match_pattern delim with
      | ok s =>
        rw [match_pattern_ok_eq_consumeN hm]
        exact reachable_consumeN h delim.length
      | error e => exact ih p.consume (Reachable.consume h)

theorem reachable_match_until_group_go {input : List α}
    (group : SymbolGroup α) :
    ∀ (fuel : Nat) (p : MatchingPipeline α), Reachable input p →
      Reachable input (match_until_group_go group fuel p) := by
  intro fuel
  induction fuel with
  | zero => intro p h; exact h
  | succ fuel ih =>
    intro p h
    rw [match_until_group_go.eq_2]
    by_cases he : p.reached_eos
    · rw [if_pos he]; exact h
    · rw [if_neg he]
      cases hu : p.unmatched with
      | nil => exact h
      | cons x rest =>
        by_cases hx : group.accept x
        · simp only [hx, if_pos]
          exact Reachable.consume h
        · simp only [hx]
          rw [if_neg (by simp)]
          exact ih p.consume (Reachable.consume h)

/-- Any property closed under callback successes is preserved by the
lib.rs `Exactly` loop. -/
theorem exactly_lib_go_preserves {R : MatchingPipeline α → Prop}
    {cb : MatchingPipeline α → PipelineResult α}
    (hcb : ∀ q r, R q → cb q = .ok r → R r) :
    ∀ (k : Nat) (p s : MatchingPipeline α), R p →
      exactly_lib_go cb k p = .ok s → R s := by
  intro k
  induction k with
  | zero => intro p s _ h; cases h
  | succ k ih =>
    intro p s hR h
    rw [exactly_lib_go.eq_2] at h
    by_cases he : p.reached_eos
    · rw [if_pos he] at h; cases h
    · rw [if_neg he] at h
      cases hq : cb p with
      | error e => rw [hq] at h; cases h
      | ok r =>
        rw [hq] at h
        cases k with
        | zero =>
          cases h
          exact hcb p s hR hq
        | succ k' => exact ih r s (hcb p r hR hq) h

/-- Any property closed under callback successes is preserved by the
quantifiers.rs `Exactly` loop. -/
theorem exactly_go_preserves {R : MatchingPipeline α → Prop}
    {cb : MatchingPipeline α → PipelineResult α}
    (hcb : ∀ q r, R q → cb q = .ok r → R r) :
    ∀ (k : Nat) (p s : MatchingPipeline α), R p →
      exactly_go cb k p = .ok s → R s := by
  intro k
  induction k with
  | zero => intro p s _ h; cases h
  | succ k ih =>
    intro p s hR h
    rw [exactly_go.eq_2] at h
    cases hq : cb p with
    | error e => rw [hq] at h; cases h
    | ok r =>
      rw [hq] at h
      cases k with
      | zero =>
        cases h
        exact hcb p s hR hq
      | succ k' => exact ih r s (hcb p r hR hq) h

/-- Any property closed under callback successes is preserved by the
`AtLeast` loop. -/
theorem at_least_go_preserves {R : MatchingPipeline α → Prop}
    {cb : MatchingPipeline α → PipelineResult α}
    (hcb : ∀ q r, R q → cb q = .ok r → R r) (target : Nat) :
    ∀ (fuel n : Nat) (p s : MatchingPipeline α), R p →
      at_least_go cb target fuel n p = some (.ok s) → R s := by
  intro fuel
  induction fuel with
  | zero => intro n p s _ h; cases h
  | succ fuel ih =>
    intro n p s hR h
    rw [at_least_go.eq_2] at h
    cases hq : cb p with
    | ok r =>
      rw [hq] at h
      exact ih (n + 1) r s (hcb p r hR hq) h
    | error e =>
      rw [hq] at h
      have hred : some (if target ≤ n then PipelineResult.ok p
          else PipelineResult.error e) = some (PipelineResult.ok s) := h
      by_cases hn : target ≤ n
      · rw [if_pos hn] at hred
        cases hred
        exact hR
      · rw [if_neg hn] at hred
        cases hred

/-- Any property closed under callback successes is preserved by the
`AtMost` loop. -/
theorem at_most_go_preserves {R : MatchingPipeline α → Prop}
    {cb : MatchingPipeline α → PipelineResult α}
    (hcb : ∀ q r, R q → cb q = .ok r → R r) :
    ∀ (k : Nat) (any : Bool) (p s : MatchingPipeline α), R p →
      at_most_go cb k any p = .ok s → R s := by
  intro k
  induction k with
  | zero =>
    intro any p s hR h
    cases h
    exact hR
  | succ k ih =>
    intro any p s hR h
    rw [at_most_go.eq_2] at h
    cases hq : cb p with
    | ok r =>
      rw [hq] at h
      cases k with
      | zero =>
        cases h
        exact hcb p s hR hq
      | succ k' => exact ih true r s (hcb p r hR hq) h
    | error e =>
      rw [hq] at h
      cases any with
      | true =>
        have hred : PipelineResult.ok p = PipelineResult.ok s := h
        cases hred
        exact hR
      | false =>
        have hred : PipelineResult.error e = PipelineResult.ok s := h
        cases hred

/-- Any property closed under callback successes is preserved by
`ZeroOrOne`. -/
theorem zero_or_one_preserves {R : MatchingPipeline α → Prop}
    {cb : MatchingPipeline α → PipelineResult α}
    (hcb : ∀ q r, R q → cb q = .ok r → R r)
    (p s : MatchingPipeline α) (hR : R p)
    (h : with_quantifier_zero_or_one p cb = .ok s) : R s := by
  unfold with_quantifier_zero_or_one MatchingPipeline.block at h
  cases hq : cb p with
  | ok r =>
    rw [hq] at h
    cases h
    exact hcb p s hR hq
  | error e =>
    rw [hq] at h
    cases h
    exact hR

end PatternMatcher
